import Mathlib

/-!
Shallow embedding of the Titan kernel coordination core
(`modules/kernel/src/time.c` and `modules/kernel/src/sys.c`).

Machine integers are modelled as `Int` (for `int64_t`/`int32_t` values) and
`Nat` (for `uint32_t` words), with explicit `% 2 ^ 32` / `% 2 ^ 64` wrapping
where overflow is relevant.  Shared-memory reads made by a routine while it
runs (clock reads, sequence-lock observations, the peer core's shutdown flag)
are supplied as explicit traces, so every routine is a plain computable
function of its inputs; a call is modelled in isolation (no concurrent
interference on the words it writes).
-/

namespace Titan

/-- Error enumeration `ti_errc_t` used throughout the kernel. -/
inductive Errc where
  | none
  | invalidArg
  | invalidState
  | timeout
  | overflow
  | internal
  | busy
  deriving DecidableEq, Repr

/-- Reinterpret a natural number as a signed 64-bit value (two's complement). -/
def toInt64 (n : Nat) : Int :=
  if n % 2 ^ 64 < 2 ^ 63 then ((n % 2 ^ 64 : Nat) : Int)
  else ((n % 2 ^ 64 : Nat) : Int) - 2 ^ 64

/-- Wrap an integer into the signed 64-bit range (two's complement). -/
def wrap64 (x : Int) : Int :=
  toInt64 (x % 2 ^ 64).toNat

-- Multiplication factors from time.c for converting between units of time.

def _TIME_MILLIS_MUL : Int := 1000

def _TIME_SECONDS_MUL : Int := 1000000

def _TIME_MINUTES_MUL : Int := 60000000

def _TIME_HOURS_MUL : Int := 3600000000

def _TIME_DAYS_MUL : Int := 86400000000

/-- Modelled from the spec: `TI_MUL` (declared in `util/include/math.h`, which
is not among the provided sources) is the overflow-detecting signed 64-bit
multiply used by the `x_to_time` converters: it yields the product and sets
the flag exactly when the mathematical product falls outside the `int64_t`
range. -/
def TI_MUL (a b : Int) : Int × Bool :=
  if -(2 ^ 63) ≤ a * b ∧ a * b < 2 ^ 63 then (a * b, false)
  else (wrap64 (a * b), true)

/-- Generic body of the `_TIME_FROM_IMPL(unit, mul)` macro from time.c:
`ti_<unit>_to_time`. -/
def timeFromImpl (mul : Int) (x : Int) : Int × Errc :=
  if x < 0 then (-1, Errc.invalidArg)
  else
    let r := TI_MUL x mul
    if r.2 then (-1, Errc.overflow)
    else (r.1, Errc.none)

/-- Generic body of the `_TIME_TO_IMPL(unit, mul)` macro from time.c:
`ti_time_to_<unit>`. -/
def timeToImpl (mul : Int) (time : Int) : Int × Errc :=
  if time < 0 then (-1, Errc.invalidArg)
  else if time = 0 then (0, Errc.none)
  else (time / mul, Errc.none)

def ti_millis_to_time : Int → Int × Errc := timeFromImpl _TIME_MILLIS_MUL

def ti_time_to_millis : Int → Int × Errc := timeToImpl _TIME_MILLIS_MUL

def ti_seconds_to_time : Int → Int × Errc := timeFromImpl _TIME_SECONDS_MUL

def ti_time_to_seconds : Int → Int × Errc := timeToImpl _TIME_SECONDS_MUL

def ti_minutes_to_time : Int → Int × Errc := timeFromImpl _TIME_MINUTES_MUL

def ti_time_to_minutes : Int → Int × Errc := timeToImpl _TIME_MINUTES_MUL

def ti_hours_to_time : Int → Int × Errc := timeFromImpl _TIME_HOURS_MUL

def ti_time_to_hours : Int → Int × Errc := timeToImpl _TIME_HOURS_MUL

def ti_days_to_time : Int → Int × Errc := timeFromImpl _TIME_DAYS_MUL

def ti_time_to_days : Int → Int × Errc := timeToImpl _TIME_DAYS_MUL

/-! ### Time service state and the tick-driven update (time.c) -/

/-- The time-service globals of time.c: `_current_time` (signed 64-bit
microsecond counter) and `_current_time_seq` (32-bit sequence counter,
kept modulo `2 ^ 32`). -/
structure TimeState where
  current_time : Int
  current_time_seq : Nat
  deriving DecidableEq, Repr

/-- The amount time.c adds to `_current_time` on each tick:
`TI_CFG_KERNEL_TICK_FREQ / _TIME_SECONDS_MUL` (C integer division), with the
configured tick frequency in hertz as a parameter. -/
def tickIncrement (tickFreq : Nat) : Int :=
  (tickFreq : Int) / _TIME_SECONDS_MUL

/-- State of `_ti_update_time` after its first `ti_atomic_add(&seq, 1)`,
i.e. between the two sequence-counter increments. -/
def updateTimeMid (s : TimeState) : TimeState :=
  { s with current_time_seq := (s.current_time_seq + 1) % 2 ^ 32 }

/-- Function `_ti_update_time` from time.c: bump the sequence counter, add the tick
increment to `_current_time`, bump the sequence counter again. -/
def _ti_update_time (tickFreq : Nat) (s : TimeState) : TimeState :=
  let s1 := updateTimeMid s
  let s2 := { s1 with current_time := s1.current_time + tickIncrement tickFreq }
  { s2 with current_time_seq := (s2.current_time_seq + 1) % 2 ^ 32 }

/-! ### The seq-lock reader `ti_get_time` (time.c)

One loop iteration of `ti_get_time` performs four atomic loads; the values a
given iteration observes form a `TimeObs`.  A run of the function is
determined by the list of observations successive iterations would see. -/

/-- The four 32-bit words one iteration of `ti_get_time` loads:
the sequence counter before, the two halves of `_current_time`, and the
sequence counter after. -/
structure TimeObs where
  seqStart : Nat
  lo : Nat
  hi : Nat
  seqEnd : Nat
  deriving DecidableEq, Repr

/-- The 64-bit value `union _time_uni_t` assembles from the two 32-bit
halves (little-endian: `lo` is the low word). -/
def timeUniValue (lo hi : Nat) : Int :=
  toInt64 (lo % 2 ^ 32 + (hi % 2 ^ 32) * 2 ^ 32)

/-- The retry condition of `ti_get_time`'s do-while loop, negated: an
observation is consistent when `seq_start == seq_end` and `seq_start` is
even. -/
def consistentObs (o : TimeObs) : Bool :=
  (o.seqStart == o.seqEnd) && (o.seqStart % 2 == 0)

/-- The do-while loop of `ti_get_time`, with the retry bound
`TI_CFG_TIME_LOCK_ATTEMPTS` as a parameter.  `loopCount` is the value of
`loop_count` on entry to the iteration; `none` means the observation trace
ran out before the function returned. -/
def getTimeLoop (attempts : Nat) (loopCount : Nat) :
    List TimeObs → Option (Int × Errc)
  | [] =>
    if loopCount > attempts then some (-1, Errc.timeout) else Option.none
  | o :: rest =>
    if loopCount > attempts then some (-1, Errc.timeout)
    else if consistentObs o then some (timeUniValue o.lo o.hi, Errc.none)
    else getTimeLoop attempts (loopCount + 1) rest

/-- Function `ti_get_time` from time.c, as a function of the observations its
iterations make. -/
def ti_get_time (attempts : Nat) (obs : List TimeObs) : Option (Int × Errc) :=
  getTimeLoop attempts 0 obs

/-! ### `ti_sleep_until` (time.c)

Each call the routine makes to `ti_get_time` yields a value and an error
code; a run is determined by the list of those results, consumed left to
right.  `none` means the trace ran out while the routine was still polling. -/

/-- The polling loop of `ti_sleep_until`: read the clock, leave the loop as
soon as the value has reached `time` (returning `NONE`), and fail with
`INTERNAL` if a read inside the loop reported an error. -/
def sleepUntilLoop (time : Int) : List (Int × Errc) → Option Errc
  | [] => Option.none
  | (v, e) :: rest =>
    if v < time then
      if e ≠ Errc.none then some Errc.internal
      else sleepUntilLoop time rest
    else some Errc.none

/-- Function `ti_sleep_until` from time.c: read the clock once (failure ⇒ `INTERNAL`),
reject targets strictly in the past (`INVALID_ARG`), then poll. -/
def ti_sleep_until (time : Int) (reads : List (Int × Errc)) : Option Errc :=
  match reads with
  | [] => Option.none
  | (v, e) :: rest =>
    if e ≠ Errc.none then some Errc.internal
    else if time < v then some Errc.invalidArg
    else sleepUntilLoop time rest

/-! ### sys.c: core identity and per-core critical sections -/

/-- The two cores, `ti_core_id_t`. -/
inductive CoreId where
  | cm7
  | cm4
  deriving DecidableEq, Repr

/-- Helper `_get_this_exclusive_tag`: `+1` on CM7, `-1` on CM4. -/
def thisExclusiveTag : CoreId → Int
  | CoreId.cm7 => 1
  | CoreId.cm4 => -1

/-- Helper `_get_alt_exclusive_tag`: the tag of the other core. -/
def altExclusiveTag : CoreId → Int
  | CoreId.cm7 => -1
  | CoreId.cm4 => 1

/-- Per-core critical-section state: the core's `_cmX_critical_count` and
the core's BASEPRI interrupt-mask register (`0` = unmasked; `ti_enter_critical`
writes the priority floor `1` with `msr basepri, #1`). -/
structure CritState where
  critical_count : Int
  basepri : Nat
  deriving DecidableEq, Repr

/-- Function `ti_enter_critical` from sys.c: on the 0 → 1 transition raise BASEPRI to
the floor, then increment the counter. -/
def ti_enter_critical (s : CritState) : CritState :=
  let s1 := if s.critical_count = 0 then { s with basepri := 1 } else s
  { s1 with critical_count := s1.critical_count + 1 }

/-- Function `ti_exit_critical` from sys.c: with the counter at 0 report
`INVALID_STATE` and change nothing; otherwise decrement, and on the 1 → 0
transition clear BASEPRI. -/
def ti_exit_critical (s : CritState) : CritState × Errc :=
  if s.critical_count = 0 then (s, Errc.invalidState)
  else
    let s1 := { s with critical_count := s.critical_count - 1 }
    if s1.critical_count = 0 then ({ s1 with basepri := 0 }, Errc.none)
    else (s1, Errc.none)

/-- Function `ti_is_critical` from sys.c. -/
def ti_is_critical (s : CritState) : Bool :=
  s.critical_count > 0

/-- Iterate `n` successive calls to `ti_enter_critical`. -/
def enterCriticalN : Nat → CritState → CritState
  | 0, s => s
  | n + 1, s => enterCriticalN n (ti_enter_critical s)

/-- Iterate `n` successive calls to `ti_exit_critical`; the boolean records whether
every call returned `NONE` (i.e. succeeded). -/
def exitCriticalN : Nat → CritState → CritState × Bool
  | 0, s => (s, true)
  | n + 1, s =>
    let r := ti_exit_critical s
    let r2 := exitCriticalN n r.1
    (r2.1, (r.2 == Errc.none) && r2.2)

/-! ### sys.c: cross-core exclusive sections

State shared between the two cores, plus both cores' critical-section
state (the exclusive-section routines open and close a local critical
section).  Clock reads made by `ti_enter_exclusive` are supplied as a trace
of `ti_get_time` outcomes (`some t` = read succeeded with value `t`,
`none` = read failed); a call is modelled in isolation, so words the other
core could write (the lock, its ack flag) hold still during the call. -/

/-- The sys.c globals the exclusive-section routines touch. -/
structure SysState where
  exclusive_lock : Int
  exclusive_count : Int
  cm7_exclusive_ack : Bool
  cm4_exclusive_ack : Bool
  cm7_crit : CritState
  cm4_crit : CritState
  deriving DecidableEq, Repr

/-- The calling core's critical-section state (`_get_critical_count`). -/
def critOf : CoreId → SysState → CritState
  | CoreId.cm7, s => s.cm7_crit
  | CoreId.cm4, s => s.cm4_crit

/-- Replace the calling core's critical-section state. -/
def setCrit : CoreId → SysState → CritState → SysState
  | CoreId.cm7, s, c => { s with cm7_crit := c }
  | CoreId.cm4, s, c => { s with cm4_crit := c }

/-- Function `ti_enter_critical` on core `c`, lifted to the shared state. -/
def enterCritical (c : CoreId) (s : SysState) : SysState :=
  setCrit c s (ti_enter_critical (critOf c s))

/-- Function `ti_exit_critical` on core `c`, lifted to the shared state. -/
def exitCritical (c : CoreId) (s : SysState) : SysState × Errc :=
  let r := ti_exit_critical (critOf c s)
  (setCrit c s r.1, r.2)

/-- The calling core's ack flag (`_get_this_exclusive_ack`). -/
def thisAck : CoreId → SysState → Bool
  | CoreId.cm7, s => s.cm7_exclusive_ack
  | CoreId.cm4, s => s.cm4_exclusive_ack

/-- The other core's ack flag (`_get_alt_exclusive_ack`). -/
def altAck : CoreId → SysState → Bool
  | CoreId.cm7, s => s.cm4_exclusive_ack
  | CoreId.cm4, s => s.cm7_exclusive_ack

/-- Write the calling core's ack flag. -/
def setThisAck : CoreId → SysState → Bool → SysState
  | CoreId.cm7, s, b => { s with cm7_exclusive_ack := b }
  | CoreId.cm4, s, b => { s with cm4_exclusive_ack := b }

/-- The `_exclusive_count++` step of `ti_enter_exclusive`. -/
def incCount (s : SysState) : SysState :=
  { s with exclusive_count := s.exclusive_count + 1 }

/-- The store of a tag into `_exclusive_lock` (the successful CAS). -/
def setLock (s : SysState) (v : Int) : SysState :=
  { s with exclusive_lock := v }

/-- The `_exclusive_count--; if (_exclusive_count == 0) lock := 0` pattern
shared by `ti_exit_exclusive` and every rollback path of
`ti_enter_exclusive`. -/
def releaseStep (s : SysState) : SysState :=
  let s1 := { s with exclusive_count := s.exclusive_count - 1 }
  if s1.exclusive_count = 0 then { s1 with exclusive_lock := 0 } else s1

/-- Function `ti_exit_exclusive` from sys.c. -/
def ti_exit_exclusive (c : CoreId) (s : SysState) : SysState × Errc :=
  let s0 := enterCritical c s
  if s0.exclusive_lock ≠ thisExclusiveTag c then
    let r := exitCritical c s0
    (r.1, if r.2 ≠ Errc.none then Errc.internal else Errc.invalidState)
  else if altAck c s0 = false then
    let r := exitCritical c s0
    (r.1, if r.2 ≠ Errc.none then Errc.internal else Errc.timeout)
  else
    let s1 := releaseStep s0
    let r := exitCritical c s1
    (r.1, if r.2 ≠ Errc.none then Errc.internal else Errc.none)

/-- The CAS retry loop of `ti_enter_exclusive`, entered when the lock word is
neither free nor this core's tag (held in isolation, the CAS keeps failing):
each iteration reads the clock (failure ⇒ `INTERNAL`), gives up with
`TIMEOUT` once `exTimeout` is exceeded, and asserts this core's ack flag
whenever the observed tag is the other core's. -/
def enterCasLoop (c : CoreId) (exTimeout startTime : Int) (s : SysState) :
    List (Option Int) → Option (SysState × Errc)
  | [] => Option.none
  | Option.none :: _ => some ((exitCritical c s).1, Errc.internal)
  | some t :: rest =>
    if t - startTime > exTimeout then
      let r := exitCritical c s
      some (r.1, if r.2 ≠ Errc.none then Errc.internal else Errc.timeout)
    else
      let s1 :=
        if s.exclusive_lock = altExclusiveTag c then setThisAck c s true else s
      enterCasLoop c exTimeout startTime s1 rest

/-- The acknowledgment wait loop of `ti_enter_exclusive`: spin until the
other core's ack flag is 1, reading the clock each iteration; on a failed
read or on exceeding `ackTimeout`, roll the acquisition back
(`releaseStep`). -/
def enterAckWait (c : CoreId) (ackTimeout startTime : Int) (s : SysState) :
    List (Option Int) → Option (SysState × Errc)
  | [] =>
    if altAck c s then
      let r := exitCritical c s
      some (r.1, if r.2 ≠ Errc.none then Errc.internal else Errc.none)
    else Option.none
  | r0 :: rest =>
    if altAck c s then
      let r := exitCritical c s
      some (r.1, if r.2 ≠ Errc.none then Errc.internal else Errc.none)
    else
      match r0 with
      | Option.none => some ((exitCritical c (releaseStep s)).1, Errc.internal)
      | some t =>
        if t - startTime > ackTimeout then
          let r := exitCritical c (releaseStep s)
          some (r.1, if r.2 ≠ Errc.none then Errc.internal else Errc.timeout)
        else enterAckWait c ackTimeout startTime s rest

/-- The tail of `ti_enter_exclusive` once the lock is held (fresh acquisition
or reentrant): clear this core's ack flag, increment `_exclusive_count`, read
the ack-wait start time (failure ⇒ roll back and `INTERNAL`), then wait for
the other core's ack. -/
def enterExclusivePost (c : CoreId) (ackTimeout : Int) (s : SysState)
    (clock : List (Option Int)) : Option (SysState × Errc) :=
  let s2 := incCount (setThisAck c s false)
  match clock with
  | [] => Option.none
  | Option.none :: _ => some ((exitCritical c (releaseStep s2)).1, Errc.internal)
  | some startTime :: rest => enterAckWait c ackTimeout startTime s2 rest

/-- Function `ti_enter_exclusive` from sys.c, with the configured timeouts
(`TI_CFG_EXCLUSIVE_SECTION_TIMEOUT`, `TI_CFG_EXCLUSIVE_SECTION_ACK_TIMEOUT`)
as parameters and the clock supplied as a trace of `ti_get_time` outcomes. -/
def ti_enter_exclusive (c : CoreId) (exTimeout ackTimeout : Int)
    (clock : List (Option Int)) (s : SysState) : Option (SysState × Errc) :=
  let s0 := enterCritical c s
  if s0.exclusive_lock = thisExclusiveTag c then
    enterExclusivePost c ackTimeout s0 clock
  else
    match clock with
    | [] => Option.none
    | Option.none :: _ => some ((exitCritical c s0).1, Errc.internal)
    | some startTime :: rest =>
      if s0.exclusive_lock = 0 then
        enterExclusivePost c ackTimeout (setLock s0 (thisExclusiveTag c)) rest
      else
        enterCasLoop c exTimeout startTime s0 rest

/-- Function `ti_is_exclusive` from sys.c. -/
def ti_is_exclusive (c : CoreId) (s : SysState) : Bool :=
  s.exclusive_lock == thisExclusiveTag c

/-! ### sys.c: coordinated shutdown

`ti_sys_shutdown` and the two `_exec_cmX_shutdown` helpers are straight-line
apart from the spin on the peer's shutdown flag, so a run is modelled as the
sequence of externally visible actions it performs.  The link-provided exit
tables are abstracted by their lengths; running handler `i` of a table is an
action, emitted front to back. -/

/-- Externally visible actions of the shutdown path. -/
inductive ShutdownAction where
  | setOwnFlag (c : CoreId)
  | sevSignal
  | spinOnPeer (n : Nat)
  | disableFaults
  | runKernelExit (c : CoreId) (i : Nat)
  | runMcuExit (i : Nat)
  | setSleepDeep
  | wfeForever
  deriving DecidableEq, Repr

/-- Function `_exec_cm7_shutdown` from sys.c: mask faults, run the
`__ti_kernel_cm7_exit_array` handlers front to back, then the
`__mcu_exit_array` handlers, set SLEEPDEEP, and loop on WFE forever. -/
def _exec_cm7_shutdown (kernelCm7Len mcuLen : Nat) : List ShutdownAction :=
  ShutdownAction.disableFaults ::
    ((List.range kernelCm7Len).map (ShutdownAction.runKernelExit CoreId.cm7) ++
      (List.range mcuLen).map ShutdownAction.runMcuExit ++
      [ShutdownAction.setSleepDeep, ShutdownAction.wfeForever])

/-- Function `_exec_cm4_shutdown` from sys.c: mask faults, run the
`__ti_kernel_cm4_exit_array` handlers front to back, set SLEEPDEEP, and loop
on WFE forever (no `mcu_exit` pass). -/
def _exec_cm4_shutdown (kernelCm4Len : Nat) : List ShutdownAction :=
  ShutdownAction.disableFaults ::
    ((List.range kernelCm4Len).map (ShutdownAction.runKernelExit CoreId.cm4) ++
      [ShutdownAction.setSleepDeep, ShutdownAction.wfeForever])

/-- The `while (atomic_load(alt_shutdown_flag) != 1);` spin of
`ti_sys_shutdown`: `peerFlag i` is the value observed on iteration `i`;
returns the number of iterations spent spinning, or `none` if the flag was
not seen within `fuel` iterations. -/
def shutdownSpin (peerFlag : Nat → Bool) : Nat → Nat → Option Nat
  | 0, _ => Option.none
  | fuel + 1, i => if peerFlag i then some i else shutdownSpin peerFlag fuel (i + 1)

/-- Helper `_get_this_shutdown_fn` from sys.c: the shutdown helper of the calling
core, as the action sequence running it produces. -/
def _get_this_shutdown_fn (c : CoreId)
    (kernelCm7Len kernelCm4Len mcuLen : Nat) : List ShutdownAction :=
  match c with
  | CoreId.cm7 => _exec_cm7_shutdown kernelCm7Len mcuLen
  | CoreId.cm4 => _exec_cm4_shutdown kernelCm4Len

/-- Function `ti_sys_shutdown` from sys.c: set this core's shutdown flag, issue SEV,
spin until the peer's shutdown flag reads 1, then run this core's shutdown
helper.  `none` means the peer flag never became 1 within `fuel` spin
iterations (the call blocks forever). -/
def ti_sys_shutdown (c : CoreId) (kernelCm7Len kernelCm4Len mcuLen : Nat)
    (peerFlag : Nat → Bool) (fuel : Nat) : Option (List ShutdownAction) :=
  match shutdownSpin peerFlag fuel 0 with
  | Option.none => Option.none
  | some n =>
    some (ShutdownAction.setOwnFlag c :: ShutdownAction.sevSignal ::
      ShutdownAction.spinOnPeer n ::
      _get_this_shutdown_fn c kernelCm7Len kernelCm4Len mcuLen)

/-- The length of the kernel exit-handler table belonging to core `c`. -/
def kernelExitLen (c : CoreId) (kernelCm7Len kernelCm4Len : Nat) : Nat :=
  match c with
  | CoreId.cm7 => kernelCm7Len
  | CoreId.cm4 => kernelCm4Len

/-- The exclusive-section state invariant of the spec (§8, invariants 6
and 7): the lock tag is one of −1, 0, +1; a held lock has reentrancy depth
at least 1; a free lock has depth 0. -/
def ExclInv (s : SysState) : Prop :=
  (s.exclusive_lock = -1 ∨ s.exclusive_lock = 0 ∨ s.exclusive_lock = 1) ∧
  (s.exclusive_lock ≠ 0 → 1 ≤ s.exclusive_count) ∧
  (s.exclusive_lock = 0 → s.exclusive_count = 0)

instance (s : SysState) : Decidable (ExclInv s) := by
  unfold ExclInv
  infer_instance

/-! ## Theorems -/

/-! ### Unit conversions -/

/-- A `ti_<unit>_to_time` call that succeeds on a non-negative input is
inverted by the matching `ti_time_to_<unit>` call. -/
theorem timeFromImpl_roundtrip (mul d v : Int) (hmul : 0 < mul) (hd : 0 ≤ d)
    (h : timeFromImpl mul d = (v, Errc.none)) :
    timeToImpl mul v = (d, Errc.none) := by
  unfold timeFromImpl TI_MUL at h
  rw [if_neg (not_lt.mpr hd)] at h
  by_cases hr : -(2 ^ 63) ≤ d * mul ∧ d * mul < 2 ^ 63
  · rw [if_pos hr] at h
    simp only at h
    obtain ⟨hv, -⟩ := Prod.mk.injEq .. ▸ h
    subst hv
    unfold timeToImpl
    have hdm : 0 ≤ d * mul := mul_nonneg hd (le_of_lt hmul)
    rw [if_neg (not_lt.mpr hdm)]
    by_cases h0 : d * mul = 0
    · have hd0 : d = 0 := by
        rcases mul_eq_zero.mp h0 with h | h
        · exact h
        · exact absurd h (ne_of_gt hmul)
      rw [if_pos h0, hd0]
    · rw [if_neg h0, Int.mul_ediv_cancel d (ne_of_gt hmul)]
  · rw [if_neg hr] at h
    simp only at h
    obtain ⟨-, he⟩ := Prod.mk.injEq .. ▸ h
    exact absurd he (by intro hc; cases hc)

/-- C7: for every d ≥ 0, whenever `ti_millis_to_time d` succeeds (does not
report OVERFLOW), `ti_time_to_millis` applied to its value gives back `d`;
likewise for the seconds, minutes, hours, and days conversion pairs. -/
theorem conversion_roundtrips (d : Int) (hd : 0 ≤ d) :
    (∀ v, ti_millis_to_time d = (v, Errc.none) →
      ti_time_to_millis v = (d, Errc.none)) ∧
    (∀ v, ti_seconds_to_time d = (v, Errc.none) →
      ti_time_to_seconds v = (d, Errc.none)) ∧
    (∀ v, ti_minutes_to_time d = (v, Errc.none) →
      ti_time_to_minutes v = (d, Errc.none)) ∧
    (∀ v, ti_hours_to_time d = (v, Errc.none) →
      ti_time_to_hours v = (d, Errc.none)) ∧
    (∀ v, ti_days_to_time d = (v, Errc.none) →
      ti_time_to_days v = (d, Errc.none)) :=
  ⟨fun v h => timeFromImpl_roundtrip _TIME_MILLIS_MUL d v (by decide) hd h,
   fun v h => timeFromImpl_roundtrip _TIME_SECONDS_MUL d v (by decide) hd h,
   fun v h => timeFromImpl_roundtrip _TIME_MINUTES_MUL d v (by decide) hd h,
   fun v h => timeFromImpl_roundtrip _TIME_HOURS_MUL d v (by decide) hd h,
   fun v h => timeFromImpl_roundtrip _TIME_DAYS_MUL d v (by decide) hd h⟩

/-- Witness for C7: the round trip at `d = 3` for the millis pair. -/
theorem conversion_roundtrips_witness : ti_time_to_millis 3000 = (3, Errc.none) :=
  (conversion_roundtrips 3 (by decide)).1 3000 (by decide)

/-- Counterexample for C8: `ti_time_to_millis 1` yields 0 without error,
although its input 1 is not 0, so "result is 0 iff input is 0" fails. -/
theorem to_larger_unit_zero_counterexample :
    ti_time_to_millis 1 = (0, Errc.none) ∧ (1 : Int) ≠ 0 := by
  constructor
  · decide
  · decide

/-- For a non-negative input a `ti_time_to_<unit>` call reports no error,
and its result is 0 exactly when the input is below the unit factor. -/
theorem timeToImpl_nonneg (mul t : Int) (hmul : 0 < mul) (ht : 0 ≤ t) :
    (timeToImpl mul t).2 = Errc.none ∧ ((timeToImpl mul t).1 = 0 ↔ t < mul) := by
  unfold timeToImpl
  rw [if_neg (not_lt.mpr ht)]
  by_cases h0 : t = 0
  · subst h0
    rw [if_pos rfl]
    exact ⟨rfl, by simpa using hmul⟩
  · rw [if_neg h0]
    refine ⟨rfl, ?_⟩
    have h1 : (0 : Int) ≤ t / mul := Int.ediv_nonneg ht (le_of_lt hmul)
    have h2 : (1 : Int) ≤ t / mul ↔ 1 * mul ≤ t := Int.le_ediv_iff_mul_le hmul
    rw [one_mul] at h2
    constructor
    · intro hq
      by_contra hlt
      have := h2.mpr (not_lt.mp hlt)
      omega
    · intro hlt
      by_contra hq
      have : (1 : Int) ≤ t / mul := by omega
      have := h2.mp this
      omega

/-- C8 (amended): for every non-negative input to the to-larger-unit
converters no overflow (indeed no error at all) occurs, the result is 0
whenever the input is 0, and more precisely the result is 0 exactly when
the input is smaller than the unit's conversion factor. -/
theorem to_larger_unit_nonneg (t : Int) (ht : 0 ≤ t) :
    ((ti_time_to_millis t).2 = Errc.none ∧
      ((ti_time_to_millis t).1 = 0 ↔ t < _TIME_MILLIS_MUL)) ∧
    ((ti_time_to_seconds t).2 = Errc.none ∧
      ((ti_time_to_seconds t).1 = 0 ↔ t < _TIME_SECONDS_MUL)) ∧
    ((ti_time_to_minutes t).2 = Errc.none ∧
      ((ti_time_to_minutes t).1 = 0 ↔ t < _TIME_MINUTES_MUL)) ∧
    ((ti_time_to_hours t).2 = Errc.none ∧
      ((ti_time_to_hours t).1 = 0 ↔ t < _TIME_HOURS_MUL)) ∧
    ((ti_time_to_days t).2 = Errc.none ∧
      ((ti_time_to_days t).1 = 0 ↔ t < _TIME_DAYS_MUL)) :=
  ⟨timeToImpl_nonneg _TIME_MILLIS_MUL t (by decide) ht,
   timeToImpl_nonneg _TIME_SECONDS_MUL t (by decide) ht,
   timeToImpl_nonneg _TIME_MINUTES_MUL t (by decide) ht,
   timeToImpl_nonneg _TIME_HOURS_MUL t (by decide) ht,
   timeToImpl_nonneg _TIME_DAYS_MUL t (by decide) ht⟩

/-- Witness for the amended C8 at input 86400000000 (one day of
microseconds): every converter succeeds, and only the days converter is at
its factor boundary. -/
theorem to_larger_unit_nonneg_witness :
    ((ti_time_to_millis 86400000000).2 = Errc.none ∧
      ((ti_time_to_millis 86400000000).1 = 0 ↔ (86400000000 : Int) < _TIME_MILLIS_MUL)) ∧
    ((ti_time_to_seconds 86400000000).2 = Errc.none ∧
      ((ti_time_to_seconds 86400000000).1 = 0 ↔ (86400000000 : Int) < _TIME_SECONDS_MUL)) ∧
    ((ti_time_to_minutes 86400000000).2 = Errc.none ∧
      ((ti_time_to_minutes 86400000000).1 = 0 ↔ (86400000000 : Int) < _TIME_MINUTES_MUL)) ∧
    ((ti_time_to_hours 86400000000).2 = Errc.none ∧
      ((ti_time_to_hours 86400000000).1 = 0 ↔ (86400000000 : Int) < _TIME_HOURS_MUL)) ∧
    ((ti_time_to_days 86400000000).2 = Errc.none ∧
      ((ti_time_to_days 86400000000).1 = 0 ↔ (86400000000 : Int) < _TIME_DAYS_MUL)) :=
  to_larger_unit_nonneg 86400000000 (by decide)

/-! ### The seq-lock reader -/

/-- On the TIMEOUT branch `getTimeLoop` always pairs the error with the
value −1. -/
theorem getTimeLoop_timeout_value (attempts : Nat) :
    ∀ (obs : List TimeObs) (lc : Nat) (v : Int),
      getTimeLoop attempts lc obs = some (v, Errc.timeout) → v = -1
  | [], lc, v => by
    intro h
    unfold getTimeLoop at h
    by_cases hb : lc > attempts
    · rw [if_pos hb] at h
      obtain ⟨hv, -⟩ := Prod.mk.injEq .. ▸ (Option.some.injEq .. ▸ h)
      exact hv.symm
    · rw [if_neg hb] at h
      exact absurd h (by intro hc; cases hc)
  | o :: rest, lc, v => by
    intro h
    unfold getTimeLoop at h
    by_cases hb : lc > attempts
    · rw [if_pos hb] at h
      obtain ⟨hv, -⟩ := Prod.mk.injEq .. ▸ (Option.some.injEq .. ▸ h)
      exact hv.symm
    · rw [if_neg hb] at h
      by_cases hc : consistentObs o = true
      · rw [if_pos hc] at h
        obtain ⟨-, he⟩ := Prod.mk.injEq .. ▸ (Option.some.injEq .. ▸ h)
        exact absurd he (by intro hx; cases hx)
      · rw [if_neg hc] at h
        exact getTimeLoop_timeout_value attempts rest (lc + 1) v h

/-- A consistent observation reached within the retry bound makes
`getTimeLoop` return the value assembled from it. -/
theorem getTimeLoop_success (attempts : Nat) (o : TimeObs)
    (hcon : consistentObs o = true) :
    ∀ (pre : List TimeObs) (lc : Nat) (rest : List TimeObs),
      (∀ a ∈ pre, consistentObs a = false) → lc + pre.length ≤ attempts →
      getTimeLoop attempts lc (pre ++ o :: rest) =
        some (timeUniValue o.lo o.hi, Errc.none)
  | [], lc, rest, _, hb => by
    simp only [List.nil_append]
    unfold getTimeLoop
    rw [if_neg (by simp at hb; omega), if_pos hcon]
  | a :: pre, lc, rest, hpre, hb => by
    simp only [List.cons_append]
    unfold getTimeLoop
    rw [if_neg (by simp at hb; omega)]
    rw [if_neg (by simp [hpre a (List.mem_cons_self a pre)])]
    exact getTimeLoop_success attempts o hcon pre (lc + 1) rest
      (fun a ha => hpre a (List.mem_cons_of_mem _ ha)) (by simp at hb; omega)

/-- With every observation inconsistent and enough of them to exhaust the
retry bound, `getTimeLoop` reports TIMEOUT. -/
theorem getTimeLoop_timeout_of_inconsistent (attempts : Nat) :
    ∀ (obs : List TimeObs) (lc : Nat),
      (∀ a ∈ obs, consistentObs a = false) → attempts + 1 ≤ lc + obs.length →
      getTimeLoop attempts lc obs = some (-1, Errc.timeout)
  | [], lc, _, hb => by
    unfold getTimeLoop
    rw [if_pos (by simp at hb; omega)]
  | a :: obs, lc, hall, hb => by
    unfold getTimeLoop
    by_cases hlc : lc > attempts
    · rw [if_pos hlc]
    · rw [if_neg hlc, if_neg (by simp [hall a (List.mem_cons_self a obs)])]
      exact getTimeLoop_timeout_of_inconsistent attempts obs (lc + 1)
        (fun a ha => hall a (List.mem_cons_of_mem _ ha)) (by simp at hb ⊢; omega)

/-- A successful `getTimeLoop` result always comes from a consistent
observation in the trace, with the value assembled from its two halves. -/
theorem getTimeLoop_success_inv (attempts : Nat) :
    ∀ (obs : List TimeObs) (lc : Nat) (v : Int),
      getTimeLoop attempts lc obs = some (v, Errc.none) →
      ∃ a ∈ obs, consistentObs a = true ∧ v = timeUniValue a.lo a.hi
  | [], lc, v => by
    intro h
    unfold getTimeLoop at h
    by_cases hlc : lc > attempts
    · rw [if_pos hlc] at h
      obtain ⟨-, he⟩ := Prod.mk.injEq .. ▸ (Option.some.injEq .. ▸ h)
      exact absurd he (by intro hx; cases hx)
    · rw [if_neg hlc] at h
      exact absurd h (by intro hx; cases hx)
  | a :: obs, lc, v => by
    intro h
    unfold getTimeLoop at h
    by_cases hlc : lc > attempts
    · rw [if_pos hlc] at h
      obtain ⟨-, he⟩ := Prod.mk.injEq .. ▸ (Option.some.injEq .. ▸ h)
      exact absurd he (by intro hx; cases hx)
    · rw [if_neg hlc] at h
      by_cases hc : consistentObs a = true
      · rw [if_pos hc] at h
        obtain ⟨hv, -⟩ := Prod.mk.injEq .. ▸ (Option.some.injEq .. ▸ h)
        exact ⟨a, List.mem_cons_self a obs, hc, hv.symm⟩
      · rw [if_neg hc] at h
        obtain ⟨b, hb, hbc, hbv⟩ := getTimeLoop_success_inv attempts obs (lc + 1) v h
        exact ⟨b, List.mem_cons_of_mem _ hb, hbc, hbv⟩

/-- C1: `ti_get_time` returns the 64-bit value assembled from the two
halves exactly when an attempt observes equal, even sequence-counter values
around the two half-loads (earlier attempts all being inconsistent);
inconsistent attempts retry, and once the retry count exceeds the
`TIME_LOCK_ATTEMPTS` bound the call returns TIMEOUT instead of a value. -/
theorem get_time_spec (attempts : Nat) (pre rest obs2 : List TimeObs) (o : TimeObs)
    (hpre : ∀ a ∈ pre, consistentObs a = false)
    (hlen : pre.length ≤ attempts)
    (hcon : consistentObs o = true)
    (hall : ∀ a ∈ obs2, consistentObs a = false)
    (hlen2 : attempts + 1 ≤ obs2.length) :
    ti_get_time attempts (pre ++ o :: rest) =
      some (timeUniValue o.lo o.hi, Errc.none) ∧
    ti_get_time attempts obs2 = some (-1, Errc.timeout) ∧
    (∀ obs v, ti_get_time attempts obs = some (v, Errc.none) →
      ∃ a ∈ obs, consistentObs a = true ∧ v = timeUniValue a.lo a.hi) :=
  ⟨getTimeLoop_success attempts o hcon pre 0 rest hpre (by omega),
   getTimeLoop_timeout_of_inconsistent attempts obs2 0 hall (by omega),
   fun obs v h => getTimeLoop_success_inv attempts obs 0 v h⟩

/-- Witness for C1: with bound 1, an odd-sequence attempt followed by a
consistent one yields the assembled value; two inconsistent attempts
exhaust the bound and yield TIMEOUT. -/
theorem get_time_spec_witness :
    ti_get_time 1 [TimeObs.mk 1 0 0 1, TimeObs.mk 0 7 0 0] =
      some (timeUniValue 7 0, Errc.none) ∧
    ti_get_time 1 [TimeObs.mk 1 0 0 1, TimeObs.mk 2 0 0 3] =
      some (-1, Errc.timeout) :=
  ⟨(get_time_spec 1 [TimeObs.mk 1 0 0 1] [] [TimeObs.mk 1 0 0 1, TimeObs.mk 2 0 0 3]
      (TimeObs.mk 0 7 0 0) (by decide) (by decide) (by decide) (by decide)
      (by decide)).1,
   (get_time_spec 1 [TimeObs.mk 1 0 0 1] [] [TimeObs.mk 1 0 0 1, TimeObs.mk 2 0 0 3]
      (TimeObs.mk 0 7 0 0) (by decide) (by decide) (by decide) (by decide)
      (by decide)).2.1⟩

/-- C10: whenever `ti_get_time` fails with TIMEOUT, the 64-bit value it
returns is −1. -/
theorem get_time_timeout_returns_neg_one (attempts : Nat) (obs : List TimeObs)
    (v : Int) (h : ti_get_time attempts obs = some (v, Errc.timeout)) :
    v = -1 :=
  getTimeLoop_timeout_value attempts obs 0 v h

/-- Witness for C10: a run with bound 0 and one inconsistent observation
times out, and the theorem applies to it. -/
theorem get_time_timeout_witness :
    ti_get_time 0 [TimeObs.mk 1 0 0 2] = some (-1, Errc.timeout) ∧ (-1 : Int) = -1 :=
  ⟨by decide, get_time_timeout_returns_neg_one 0 [TimeObs.mk 1 0 0 2] (-1) (by decide)⟩

/-! ### The tick update -/

/-- C4 as the code behaves (documenting the bug): at the representative
tick frequency of 1000 Hz the increment time.c computes,
`TI_CFG_KERNEL_TICK_FREQ / _TIME_SECONDS_MUL`, is 0, while one kernel tick
period is `_TIME_SECONDS_MUL / 1000 = 1000` microseconds; so a tick bumps
the sequence counter twice but leaves `now_us` at 0 forever. -/
theorem update_time_increment_bug :
    tickIncrement 1000 = 0 ∧
    _TIME_SECONDS_MUL / (1000 : Int) = 1000 ∧
    (_ti_update_time 1000 (TimeState.mk 0 0)).current_time = 0 ∧
    (_ti_update_time 1000 (TimeState.mk 0 0)).current_time_seq = 2 := by
  refine ⟨by decide, by decide, ?_, ?_⟩
  · decide
  · decide

/-! ### `ti_sleep_until` -/

/-- The polling loop of `ti_sleep_until` never produces INVALID_ARG. -/
theorem sleepUntilLoop_ne_invalidArg (time : Int) :
    ∀ reads, sleepUntilLoop time reads ≠ some Errc.invalidArg
  | [] => by
    intro h
    cases h
  | (v, e) :: rest => by
    intro h
    unfold sleepUntilLoop at h
    by_cases hv : v < time
    · rw [if_pos hv] at h
      by_cases he : e ≠ Errc.none
      · rw [if_pos he] at h
        cases Option.some.injEq .. ▸ h
      · rw [if_neg he] at h
        exact sleepUntilLoop_ne_invalidArg time rest h
    · rw [if_neg hv] at h
      cases Option.some.injEq .. ▸ h

/-- C9: `ti_sleep_until` reads the clock before validating its argument — a
failed first read yields INTERNAL whatever the target; with a successful
first read, INVALID_ARG is returned exactly when the target is strictly
below the value read at entry; and a target equal to the entry value is
accepted, returning NONE as soon as a successful read at or past the target
follows. -/
theorem sleep_until_entry (time v : Int) (e : Errc) (rest : List (Int × Errc)) :
    (e ≠ Errc.none → ti_sleep_until time ((v, e) :: rest) = some Errc.internal) ∧
    (e = Errc.none →
      (ti_sleep_until time ((v, e) :: rest) = some Errc.invalidArg ↔ time < v)) ∧
    (∀ w rest2, e = Errc.none → time = v → v ≤ w →
      ti_sleep_until time ((v, e) :: (w, Errc.none) :: rest2) = some Errc.none) := by
  refine ⟨fun he => ?_, fun he => ?_, fun w rest2 he ht hw => ?_⟩
  · simp only [ti_sleep_until]
    rw [if_pos he]
  · subst he
    simp only [ti_sleep_until]
    rw [if_neg (by simp)]
    by_cases hv : time < v
    · rw [if_pos hv]
      simp [hv]
    · rw [if_neg hv]
      constructor
      · intro h
        exact absurd h (sleepUntilLoop_ne_invalidArg time rest)
      · intro h
        exact absurd h hv
  · subst he
    subst ht
    simp only [ti_sleep_until]
    rw [if_neg (by simp), if_neg (lt_irrefl _)]
    simp only [sleepUntilLoop]
    rw [if_neg (not_lt.mpr hw)]

/-- Witness for C9: target 5 with entry read 3 (successful), then a read of
6, sleeps to completion; the INVALID_ARG equivalence applied at the same
entry shows no INVALID_ARG arises. -/
theorem sleep_until_entry_witness :
    ti_sleep_until 3 [((3 : Int), Errc.none), ((3 : Int), Errc.none)] = some Errc.none ∧
    ti_sleep_until 9 [((3 : Int), Errc.timeout)] = some Errc.internal :=
  ⟨(sleep_until_entry 3 3 Errc.none []).2.2 3 [] rfl rfl (le_refl 3),
   (sleep_until_entry 9 3 Errc.timeout []).1 (by intro h; cases h)⟩

/-! ### Critical sections -/

/-- Counterexample for C5: the claim quantifies over every starting state,
but from a state already one level deep (`crit_depth = 1`, mask raised), one
enter followed by one successful exit leaves `crit_depth = 1`, not 0; and
from `crit_depth = 0` with BASEPRI in a non-idle state 5, the balanced pair
ends with BASEPRI 0, not at its pre-entry level. -/
theorem critical_balance_counterexample :
    (exitCriticalN 1 (enterCriticalN 1 (CritState.mk 1 1)) = (CritState.mk 1 1, true) ∧
      (CritState.mk 1 1).critical_count ≠ 0) ∧
    (exitCriticalN 1 (enterCriticalN 1 (CritState.mk 0 5)) = (CritState.mk 0 0, true) ∧
      (0 : Nat) ≠ 5) := by
  refine ⟨⟨?_, ?_⟩, ?_, ?_⟩
  · decide
  · decide
  · decide
  · decide

/-- From depth `k ≥ 1` the interrupt mask is already raised, so `n` enters
only add to the counter. -/
theorem enterCriticalN_of_pos (n : Nat) :
    ∀ (k : Int) (b : Nat), 1 ≤ k →
      enterCriticalN n (CritState.mk k b) = CritState.mk (k + n) b := by
  induction n with
  | zero =>
    intro k b hk
    simp [enterCriticalN]
  | succ n ih =>
    intro k b hk
    have h1 : ti_enter_critical (CritState.mk k b) = CritState.mk (k + 1) b := by
      unfold ti_enter_critical
      rw [if_neg (show k ≠ 0 by omega)]
    simp only [enterCriticalN]
    rw [h1, ih (k + 1) b (by omega)]
    congr 1
    omega

/-- Exiting `n + 1` times from depth `n + 1` with the mask raised succeeds
throughout and ends at depth 0 with the mask cleared. -/
theorem exitCriticalN_unwind (n : Nat) :
    exitCriticalN (n + 1) (CritState.mk ((n : Int) + 1) 1) =
      (CritState.mk 0 0, true) := by
  induction n with
  | zero =>
    decide
  | succ n ih =>
    have h1 : ti_exit_critical (CritState.mk ((n : Int) + 1 + 1) 1) =
        (CritState.mk ((n : Int) + 1) 1, Errc.none) := by
      unfold ti_exit_critical
      rw [if_neg (show ((n : Int) + 1 + 1) ≠ 0 by omega)]
      rw [if_neg (show ((n : Int) + 1 + 1 - 1) ≠ 0 by omega)]
      have he : ((n : Int) + 1 + 1 - 1) = (n : Int) + 1 := by omega
      rw [he]
    have hcast : (((n + 1 : Nat) : Int) + 1) = ((n : Int) + 1 + 1) := by
      push_cast
      ring
    rw [exitCriticalN, hcast, h1]
    simp only
    rw [ih]
    rfl

/-- C5 (amended): for every `N` and every starting state in which the core
is outside any critical section (`crit_depth = 0`, BASEPRI at the unmasked
level 0), `N` enters followed by `N` exits succeed throughout and leave
`crit_depth = 0` with BASEPRI back at its pre-entry level. -/
theorem critical_balance (N : Nat) (s : CritState)
    (hc : s.critical_count = 0) (hb : s.basepri = 0) :
    (exitCriticalN N (enterCriticalN N s)).1.critical_count = 0 ∧
    (exitCriticalN N (enterCriticalN N s)).1.basepri = s.basepri ∧
    (exitCriticalN N (enterCriticalN N s)).2 = true := by
  obtain ⟨k, b⟩ := s
  simp only at hc hb
  subst hc
  subst hb
  cases N with
  | zero =>
    exact ⟨rfl, rfl, rfl⟩
  | succ n =>
    have h1 : ti_enter_critical (CritState.mk 0 0) = CritState.mk 1 1 := by decide
    simp only [enterCriticalN]
    rw [h1, enterCriticalN_of_pos n 1 1 (le_refl 1)]
    have he : (1 : Int) + n = (n : Int) + 1 := by omega
    rw [he, exitCriticalN_unwind n]
    exact ⟨rfl, rfl, rfl⟩

/-! ### Exclusive sections: structural facts about the state helpers -/

@[simp]
theorem critOf_setCrit (c : CoreId) (s : SysState) (cs : CritState) :
    critOf c (setCrit c s cs) = cs := by
  cases c <;> rfl

@[simp]
theorem exclusive_lock_enterCritical (c : CoreId) (s : SysState) :
    (enterCritical c s).exclusive_lock = s.exclusive_lock := by
  cases c <;> rfl

@[simp]
theorem exclusive_count_enterCritical (c : CoreId) (s : SysState) :
    (enterCritical c s).exclusive_count = s.exclusive_count := by
  cases c <;> rfl

@[simp]
theorem altAck_enterCritical (c c' : CoreId) (s : SysState) :
    altAck c (enterCritical c' s) = altAck c s := by
  cases c <;> cases c' <;> rfl

@[simp]
theorem thisAck_enterCritical (c c' : CoreId) (s : SysState) :
    thisAck c (enterCritical c' s) = thisAck c s := by
  cases c <;> cases c' <;> rfl

@[simp]
theorem critOf_enterCritical (c : CoreId) (s : SysState) :
    critOf c (enterCritical c s) = ti_enter_critical (critOf c s) := by
  cases c <;> rfl

@[simp]
theorem exclusive_lock_exitCritical (c : CoreId) (s : SysState) :
    (exitCritical c s).1.exclusive_lock = s.exclusive_lock := by
  cases c <;> rfl

@[simp]
theorem exclusive_count_exitCritical (c : CoreId) (s : SysState) :
    (exitCritical c s).1.exclusive_count = s.exclusive_count := by
  cases c <;> rfl

@[simp]
theorem altAck_exitCritical (c c' : CoreId) (s : SysState) :
    altAck c (exitCritical c' s).1 = altAck c s := by
  cases c <;> cases c' <;> rfl

@[simp]
theorem thisAck_exitCritical (c c' : CoreId) (s : SysState) :
    thisAck c (exitCritical c' s).1 = thisAck c s := by
  cases c <;> cases c' <;> rfl

@[simp]
theorem exitCritical_snd (c : CoreId) (s : SysState) :
    (exitCritical c s).2 = (ti_exit_critical (critOf c s)).2 := by
  cases c <;> rfl

@[simp]
theorem ti_enter_critical_count (cs : CritState) :
    (ti_enter_critical cs).critical_count = cs.critical_count + 1 := by
  unfold ti_enter_critical
  split <;> rfl

theorem ti_exit_critical_snd_of_ne (cs : CritState)
    (h : cs.critical_count ≠ 0) : (ti_exit_critical cs).2 = Errc.none := by
  simp only [ti_exit_critical]
  rw [if_neg h]
  split <;> rfl

@[simp]
theorem releaseStep_exclusive_count (s : SysState) :
    (releaseStep s).exclusive_count = s.exclusive_count - 1 := by
  simp only [releaseStep]
  split <;> rfl

theorem releaseStep_exclusive_lock (s : SysState) :
    (releaseStep s).exclusive_lock =
      if s.exclusive_count - 1 = 0 then 0 else s.exclusive_lock := by
  simp only [releaseStep]
  split <;> rename_i h <;> simp [h]

@[simp]
theorem critOf_releaseStep (c : CoreId) (s : SysState) :
    critOf c (releaseStep s) = critOf c s := by
  cases c <;> (simp only [releaseStep]; split <;> rfl)

@[simp]
theorem altAck_releaseStep (c : CoreId) (s : SysState) :
    altAck c (releaseStep s) = altAck c s := by
  cases c <;> (simp only [releaseStep]; split <;> rfl)

@[simp]
theorem exclusive_lock_incCount (s : SysState) :
    (incCount s).exclusive_lock = s.exclusive_lock :=
  rfl

@[simp]
theorem exclusive_count_incCount (s : SysState) :
    (incCount s).exclusive_count = s.exclusive_count + 1 :=
  rfl

@[simp]
theorem altAck_incCount (c : CoreId) (s : SysState) :
    altAck c (incCount s) = altAck c s := by
  cases c <;> rfl

@[simp]
theorem critOf_incCount (c : CoreId) (s : SysState) :
    critOf c (incCount s) = critOf c s := by
  cases c <;> rfl

@[simp]
theorem exclusive_lock_setLock (s : SysState) (v : Int) :
    (setLock s v).exclusive_lock = v :=
  rfl

@[simp]
theorem exclusive_count_setLock (s : SysState) (v : Int) :
    (setLock s v).exclusive_count = s.exclusive_count :=
  rfl

@[simp]
theorem altAck_setLock (c : CoreId) (s : SysState) (v : Int) :
    altAck c (setLock s v) = altAck c s := by
  cases c <;> rfl

@[simp]
theorem critOf_setLock (c : CoreId) (s : SysState) (v : Int) :
    critOf c (setLock s v) = critOf c s := by
  cases c <;> rfl

@[simp]
theorem exclusive_lock_setThisAck (c : CoreId) (s : SysState) (b : Bool) :
    (setThisAck c s b).exclusive_lock = s.exclusive_lock := by
  cases c <;> rfl

@[simp]
theorem exclusive_count_setThisAck (c : CoreId) (s : SysState) (b : Bool) :
    (setThisAck c s b).exclusive_count = s.exclusive_count := by
  cases c <;> rfl

@[simp]
theorem altAck_setThisAck (c : CoreId) (s : SysState) (b : Bool) :
    altAck c (setThisAck c s b) = altAck c s := by
  cases c <;> rfl

@[simp]
theorem critOf_setThisAck (c c' : CoreId) (s : SysState) (b : Bool) :
    critOf c (setThisAck c' s b) = critOf c s := by
  cases c <;> cases c' <;> rfl

/-- With the calling core's critical count non-negative on entry, the
critical exit paired with the entry at the head of `ti_exit_exclusive`
always succeeds, reducing the routine to a three-way case split. -/
theorem ti_exit_exclusive_eq (c : CoreId) (s : SysState)
    (hcrit : 0 ≤ (critOf c s).critical_count) :
    ti_exit_exclusive c s =
      if s.exclusive_lock ≠ thisExclusiveTag c then
        ((exitCritical c (enterCritical c s)).1, Errc.invalidState)
      else if altAck c s = false then
        ((exitCritical c (enterCritical c s)).1, Errc.timeout)
      else
        ((exitCritical c (releaseStep (enterCritical c s))).1, Errc.none) := by
  have hnone : (exitCritical c (enterCritical c s)).2 = Errc.none := by
    rw [exitCritical_snd, critOf_enterCritical]
    apply ti_exit_critical_snd_of_ne
    rw [ti_enter_critical_count]
    omega
  have hnone2 : (exitCritical c (releaseStep (enterCritical c s))).2 = Errc.none := by
    rw [exitCritical_snd, critOf_releaseStep, critOf_enterCritical]
    apply ti_exit_critical_snd_of_ne
    rw [ti_enter_critical_count]
    omega
  simp only [ti_exit_exclusive, exclusive_lock_enterCritical,
    altAck_enterCritical, hnone, hnone2]
  by_cases h1 : s.exclusive_lock ≠ thisExclusiveTag c
  · rw [if_pos h1, if_pos h1]
    simp
  · rw [if_neg h1, if_neg h1]
    by_cases h2 : altAck c s = false
    · rw [if_pos h2, if_pos h2]
      simp
    · rw [if_neg h2, if_neg h2]
      simp [hnone2]

/-- C3: `ti_exit_exclusive` returns INVALID_STATE when the calling core
does not hold the lock and TIMEOUT when the other core's ack flag is clear
at exit time; on both error returns `lock_tag` and `ex_depth` are
unchanged, and only on an error-free outermost exit is the lock released
to 0 after the depth decrement. -/
theorem exit_exclusive_spec (c : CoreId) (s : SysState)
    (hcrit : 0 ≤ (critOf c s).critical_count) :
    ((ti_exit_exclusive c s).2 = Errc.invalidState ↔
      s.exclusive_lock ≠ thisExclusiveTag c) ∧
    ((ti_exit_exclusive c s).2 = Errc.timeout ↔
      (s.exclusive_lock = thisExclusiveTag c ∧ altAck c s = false)) ∧
    ((ti_exit_exclusive c s).2 ≠ Errc.none →
      (ti_exit_exclusive c s).1.exclusive_lock = s.exclusive_lock ∧
      (ti_exit_exclusive c s).1.exclusive_count = s.exclusive_count) ∧
    ((ti_exit_exclusive c s).2 = Errc.none →
      (ti_exit_exclusive c s).1.exclusive_count = s.exclusive_count - 1 ∧
      (ti_exit_exclusive c s).1.exclusive_lock =
        (if s.exclusive_count - 1 = 0 then 0 else s.exclusive_lock)) := by
  rw [ti_exit_exclusive_eq c s hcrit]
  by_cases h1 : s.exclusive_lock ≠ thisExclusiveTag c
  · rw [if_pos h1]
    refine ⟨by simp [h1], by simp [h1], fun _ => by simp, fun h => by cases h⟩
  · rw [if_neg h1]
    push_neg at h1
    by_cases h2 : altAck c s = false
    · rw [if_pos h2]
      refine ⟨by simp [h1], by simp [h1, h2], fun _ => by simp, fun h => by cases h⟩
    · rw [if_neg h2]
      refine ⟨by simp [h1], by simp [h2], fun h => absurd rfl h, fun _ => ?_⟩
      exact ⟨by simp, by simp [releaseStep_exclusive_lock]⟩

/-- Witness for C3: CM7 holds the lock at depth 2 but CM4's ack flag is
clear, so the exit reports TIMEOUT. -/
theorem exit_exclusive_spec_witness :
    (ti_exit_exclusive CoreId.cm7
        (SysState.mk 1 2 true false (CritState.mk 0 0) (CritState.mk 0 0))).2 =
      Errc.timeout ↔
    ((SysState.mk 1 2 true false (CritState.mk 0 0)
        (CritState.mk 0 0)).exclusive_lock = thisExclusiveTag CoreId.cm7 ∧
      altAck CoreId.cm7
        (SysState.mk 1 2 true false (CritState.mk 0 0) (CritState.mk 0 0)) = false) :=
  (exit_exclusive_spec CoreId.cm7
    (SysState.mk 1 2 true false (CritState.mk 0 0) (CritState.mk 0 0))
    (by decide)).2.1

/-- The lock word after `releaseStep`, split into the two omega-friendly
cases. -/
theorem releaseStep_lock_cases (s : SysState) :
    (s.exclusive_count - 1 = 0 ∧ (releaseStep s).exclusive_lock = 0) ∨
    (s.exclusive_count - 1 ≠ 0 ∧
      (releaseStep s).exclusive_lock = s.exclusive_lock) := by
  rw [releaseStep_exclusive_lock]
  by_cases h : s.exclusive_count - 1 = 0
  · exact Or.inl ⟨h, by rw [if_pos h]⟩
  · exact Or.inr ⟨h, by rw [if_neg h]⟩

/-- Each core's tag is ±1. -/
theorem thisExclusiveTag_cases (c : CoreId) :
    thisExclusiveTag c = 1 ∨ thisExclusiveTag c = -1 := by
  cases c
  · exact Or.inl rfl
  · exact Or.inr rfl

/-- The CAS retry loop never touches the lock word or the reentrancy
counter (held in isolation it only asserts the ack flag and unwinds the
critical section). -/
theorem enterCasLoop_fields (c : CoreId) (exTO startT : Int) :
    ∀ (clock : List (Option Int)) (s s' : SysState) (e : Errc),
      enterCasLoop c exTO startT s clock = some (s', e) →
      s'.exclusive_lock = s.exclusive_lock ∧
      s'.exclusive_count = s.exclusive_count := by
  intro clock
  induction clock with
  | nil =>
    intro s s' e h
    exact Option.noConfusion h
  | cons r rest ih =>
    intro s s' e h
    cases r with
    | none =>
      simp only [enterCasLoop] at h
      obtain ⟨hs, -⟩ := Prod.mk.injEq .. ▸ (Option.some.injEq .. ▸ h)
      subst hs
      exact ⟨by simp, by simp⟩
    | some t =>
      simp only [enterCasLoop] at h
      split at h
      · obtain ⟨hs, -⟩ := Prod.mk.injEq .. ▸ (Option.some.injEq .. ▸ h)
        subst hs
        exact ⟨by simp, by simp⟩
      · obtain ⟨hl, hc⟩ := ih _ s' e h
        have hkeep :
            (if s.exclusive_lock = altExclusiveTag c then setThisAck c s true
              else s).exclusive_lock = s.exclusive_lock ∧
            (if s.exclusive_lock = altExclusiveTag c then setThisAck c s true
              else s).exclusive_count = s.exclusive_count := by
          split <;> simp
        exact ⟨hl.trans hkeep.1, hc.trans hkeep.2⟩

/-- The acknowledgment wait either returns with the lock word and counter
it started with (success) or with them rolled back one level. -/
theorem enterAckWait_fields (c : CoreId) (ackTO startT : Int) :
    ∀ (clock : List (Option Int)) (s s' : SysState) (e : Errc),
      enterAckWait c ackTO startT s clock = some (s', e) →
      (s'.exclusive_lock = s.exclusive_lock ∧
        s'.exclusive_count = s.exclusive_count) ∨
      (s'.exclusive_lock = (releaseStep s).exclusive_lock ∧
        s'.exclusive_count = s.exclusive_count - 1) := by
  intro clock
  induction clock with
  | nil =>
    intro s s' e h
    simp only [enterAckWait] at h
    split at h
    · obtain ⟨hs, -⟩ := Prod.mk.injEq .. ▸ (Option.some.injEq .. ▸ h)
      subst hs
      exact Or.inl ⟨by simp, by simp⟩
    · exact Option.noConfusion h
  | cons r rest ih =>
    intro s s' e h
    simp only [enterAckWait] at h
    split at h
    · obtain ⟨hs, -⟩ := Prod.mk.injEq .. ▸ (Option.some.injEq .. ▸ h)
      subst hs
      exact Or.inl ⟨by simp, by simp⟩
    · cases r with
      | none =>
        simp only at h
        obtain ⟨hs, -⟩ := Prod.mk.injEq .. ▸ (Option.some.injEq .. ▸ h)
        subst hs
        exact Or.inr ⟨by simp, by simp⟩
      | some t =>
        simp only at h
        split at h
        · obtain ⟨hs, -⟩ := Prod.mk.injEq .. ▸ (Option.some.injEq .. ▸ h)
          subst hs
          exact Or.inr ⟨by simp, by simp⟩
        · exact ih s s' e h

/-- Once the lock is held with a non-negative depth, the tail of
`ti_enter_exclusive` (ack clear, depth increment, ack wait with rollback)
re-establishes the exclusive-section invariant whatever it returns. -/
theorem enterExclusivePost_inv (c : CoreId) (ackTO : Int) (s : SysState)
    (clock : List (Option Int)) (s' : SysState) (e : Errc)
    (hlock : s.exclusive_lock = thisExclusiveTag c)
    (hcount : 0 ≤ s.exclusive_count)
    (h : enterExclusivePost c ackTO s clock = some (s', e)) : ExclInv s' := by
  have htag := thisExclusiveTag_cases c
  have hrel := releaseStep_lock_cases (incCount (setThisAck c s false))
  simp only [exclusive_count_incCount, exclusive_lock_incCount,
    exclusive_count_setThisAck, exclusive_lock_setThisAck] at hrel
  cases clock with
  | nil =>
    simp only [enterExclusivePost] at h
    exact Option.noConfusion h
  | cons r rest =>
    cases r with
    | none =>
      simp only [enterExclusivePost] at h
      obtain ⟨hs, -⟩ := Prod.mk.injEq .. ▸ (Option.some.injEq .. ▸ h)
      subst hs
      unfold ExclInv
      simp only [exclusive_lock_exitCritical, exclusive_count_exitCritical,
        releaseStep_exclusive_count, exclusive_count_incCount,
        exclusive_count_setThisAck]
      rcases hrel with ⟨h0, hl⟩ | ⟨h0, hl⟩ <;> rw [hl] <;> omega
    | some t =>
      simp only [enterExclusivePost] at h
      rcases enterAckWait_fields c ackTO t rest (incCount (setThisAck c s false))
          s' e h with ⟨hl, hc⟩ | ⟨hl, hc⟩ <;>
        simp only [exclusive_lock_incCount, exclusive_count_incCount,
          exclusive_lock_setThisAck, exclusive_count_setThisAck] at hl hc
      · unfold ExclInv
        rw [hl, hc, hlock]
        omega
      · unfold ExclInv
        rcases hrel with ⟨h0, hrl⟩ | ⟨h0, hrl⟩ <;> rw [hc, hl, hrl] <;> omega

/-- On every error return of `ti_exit_exclusive` the lock word and depth
are untouched; the sole mutating return is the successful one, which
decrements the depth and frees the lock when it reaches 0 (no
well-formedness assumption on the critical counter is needed for the shared
words). -/
theorem ti_exit_exclusive_fields (c : CoreId) (s : SysState) :
    ((ti_exit_exclusive c s).1.exclusive_lock = s.exclusive_lock ∧
      (ti_exit_exclusive c s).1.exclusive_count = s.exclusive_count) ∨
    (s.exclusive_lock = thisExclusiveTag c ∧
      (ti_exit_exclusive c s).1.exclusive_count = s.exclusive_count - 1 ∧
      ((s.exclusive_count - 1 = 0 ∧ (ti_exit_exclusive c s).1.exclusive_lock = 0) ∨
        (s.exclusive_count - 1 ≠ 0 ∧
          (ti_exit_exclusive c s).1.exclusive_lock = s.exclusive_lock))) := by
  simp only [ti_exit_exclusive, exclusive_lock_enterCritical, altAck_enterCritical]
  split
  · exact Or.inl ⟨by simp, by simp⟩
  · rename_i h1
    push_neg at h1
    split
    · exact Or.inl ⟨by simp, by simp⟩
    · refine Or.inr ⟨h1, by simp, ?_⟩
      have hrel := releaseStep_lock_cases (enterCritical c s)
      simp only [exclusive_count_enterCritical, exclusive_lock_enterCritical] at hrel
      rcases hrel with ⟨h0, hl⟩ | ⟨h0, hl⟩
      · exact Or.inl ⟨h0, by simp [hl]⟩
      · exact Or.inr ⟨h0, by simp [hl]⟩

/-- C2: the predicate "lock_tag ∈ {−1, 0, +1}, a held lock has depth ≥ 1,
a free lock has depth 0" is preserved by every `ti_enter_exclusive` call
(including its error and rollback returns) and by every
`ti_exit_exclusive` call. -/
theorem exclusive_inv_preserved (c : CoreId) (exTO ackTO : Int)
    (clock : List (Option Int)) (s s' : SysState) (e : Errc)
    (hinv : ExclInv s) :
    (ti_enter_exclusive c exTO ackTO clock s = some (s', e) → ExclInv s') ∧
    ExclInv (ti_exit_exclusive c s).1 := by
  have htag := thisExclusiveTag_cases c
  constructor
  · intro h
    simp only [ti_enter_exclusive, exclusive_lock_enterCritical] at h
    split at h
    · rename_i h1
      refine enterExclusivePost_inv c ackTO _ clock s' e (by simp [h1]) ?_ h
      have : thisExclusiveTag c ≠ 0 := by rcases htag with ht | ht <;> rw [ht] <;> decide
      have := hinv.2.1 (by rw [h1]; exact this)
      simp only [exclusive_count_enterCritical]
      omega
    · rename_i h1
      cases clock with
      | nil => exact Option.noConfusion h
      | cons r rest =>
        cases r with
        | none =>
          simp only at h
          obtain ⟨hs, -⟩ := Prod.mk.injEq .. ▸ (Option.some.injEq .. ▸ h)
          subst hs
          unfold ExclInv at hinv ⊢
          simp only [exclusive_lock_exitCritical, exclusive_count_exitCritical,
            exclusive_lock_enterCritical, exclusive_count_enterCritical]
          omega
        | some t =>
          simp only at h
          split at h
          · rename_i h2
            refine enterExclusivePost_inv c ackTO _ rest s' e (by simp) ?_ h
            have := hinv.2.2 h2
            simp only [exclusive_count_setLock, exclusive_count_enterCritical]
            omega
          · obtain ⟨hl, hc⟩ := enterCasLoop_fields c exTO t rest _ s' e h
            simp only [exclusive_lock_enterCritical, exclusive_count_enterCritical] at hl hc
            unfold ExclInv at hinv ⊢
            rw [hl, hc]
            exact hinv
  · rcases ti_exit_exclusive_fields c s with ⟨hl, hc⟩ | ⟨hheld, hc, hcase⟩
    · unfold ExclInv at hinv ⊢
      rw [hl, hc]
      exact hinv
    · have hd := hinv.2.1 (by
        rw [hheld]
        rcases htag with ht | ht <;> rw [ht] <;> decide)
      unfold ExclInv
      rcases hcase with ⟨h0, hl⟩ | ⟨h0, hl⟩ <;> rw [hl, hc] <;> omega

/-- Witness for C2: a fresh acquisition by CM7 from the free state whose
ack wait times out immediately (ack bound −1) rolls back and preserves the
invariant. -/
theorem exclusive_inv_preserved_witness :
    ExclInv (SysState.mk 0 0 false false (CritState.mk 0 0) (CritState.mk 0 0)) ∧
    ExclInv (ti_exit_exclusive CoreId.cm7
      (SysState.mk 0 0 false false (CritState.mk 0 0) (CritState.mk 0 0))).1 :=
  ⟨by decide,
   (exclusive_inv_preserved CoreId.cm7 0 (-1) [some 0, some 0, some 1]
      (SysState.mk 0 0 false false (CritState.mk 0 0) (CritState.mk 0 0))
      (SysState.mk 0 0 false false (CritState.mk 0 0) (CritState.mk 0 0))
      Errc.timeout (by decide)).2⟩

/-- Witness for the amended C5 at `N = 2` from the idle state. -/
theorem critical_balance_witness :
    (exitCriticalN 2 (enterCriticalN 2 (CritState.mk 0 0))).1.critical_count = 0 ∧
    (exitCriticalN 2 (enterCriticalN 2 (CritState.mk 0 0))).1.basepri =
      (CritState.mk 0 0).basepri ∧
    (exitCriticalN 2 (enterCriticalN 2 (CritState.mk 0 0))).2 = true :=
  critical_balance 2 (CritState.mk 0 0) rfl rfl

/-! ### Coordinated shutdown -/

/-- The last element of a list ending in an explicit two-element tail. -/
theorem getLastQ_append_pair (x y : ShutdownAction) :
    ∀ (l : List ShutdownAction), (l ++ [x, y]).getLast? = some y
  | [] => rfl
  | [_] => rfl
  | a :: b :: t => by
    rw [List.cons_append, List.cons_append, List.getLast?_cons_cons,
      ← List.cons_append]
    exact getLastQ_append_pair x y (b :: t)

/-- The spin of `ti_sys_shutdown` only stops on an iteration that observed
the peer flag set. -/
theorem shutdownSpin_flag (peerFlag : Nat → Bool) :
    ∀ (fuel i n : Nat), shutdownSpin peerFlag fuel i = some n →
      peerFlag n = true
  | 0, _, _ => fun h => Option.noConfusion h
  | fuel + 1, i, n => by
    intro h
    simp only [shutdownSpin] at h
    split at h
    · rename_i hp
      obtain rfl := Option.some.injEq .. ▸ h
      exact hp
    · exact shutdownSpin_flag peerFlag fuel (i + 1) n h

/-- The tag constructor of each kernel exit action is injective in the
handler index. -/
theorem runKernelExit_injective (c : CoreId) :
    Function.Injective (ShutdownAction.runKernelExit c) := by
  intro a b h
  injection h

/-- Constructor `runMcuExit` is injective in the handler index. -/
theorem runMcuExit_injective : Function.Injective ShutdownAction.runMcuExit := by
  intro a b h
  injection h

/-- C6: `ti_sys_shutdown` never returns — every completed run sets the
calling core's shutdown flag, signals the peer, spins until the peer's
shutdown flag reads 1, and only then runs the calling core's kernel
exit-handler table front to back exactly once (on CM7 followed by the
`mcu_exit` table, which the CM4 path never runs) before the terminal WFE
loop; a run whose peer flag never rises blocks forever instead. -/
theorem sys_shutdown_spec (c : CoreId) (k7 k4 mcu : Nat)
    (peerFlag : Nat → Bool) (fuel : Nat) (tr : List ShutdownAction)
    (h : ti_sys_shutdown c k7 k4 mcu peerFlag fuel = some tr) :
    (∃ n, peerFlag n = true ∧
      tr = ShutdownAction.setOwnFlag c :: ShutdownAction.sevSignal ::
        ShutdownAction.spinOnPeer n :: _get_this_shutdown_fn c k7 k4 mcu) ∧
    tr.getLast? = some ShutdownAction.wfeForever ∧
    (∀ i, i < kernelExitLen c k7 k4 →
      tr.count (ShutdownAction.runKernelExit c i) = 1) ∧
    (c = CoreId.cm4 → ∀ i, ShutdownAction.runMcuExit i ∉ tr) ∧
    (c = CoreId.cm7 → ∀ i, i < mcu →
      tr.count (ShutdownAction.runMcuExit i) = 1) := by
  simp only [ti_sys_shutdown] at h
  cases hspin : shutdownSpin peerFlag fuel 0 with
  | none =>
    rw [hspin] at h
    exact Option.noConfusion h
  | some n =>
    rw [hspin] at h
    obtain rfl := (Option.some.injEq .. ▸ h).symm
    have hp := shutdownSpin_flag peerFlag fuel 0 n hspin
    refine ⟨⟨n, hp, rfl⟩, ?_, ?_, ?_, ?_⟩
    · cases c
      · exact getLastQ_append_pair ShutdownAction.setSleepDeep
          ShutdownAction.wfeForever
          (ShutdownAction.setOwnFlag CoreId.cm7 :: ShutdownAction.sevSignal ::
            ShutdownAction.spinOnPeer n :: ShutdownAction.disableFaults ::
            ((List.range k7).map (ShutdownAction.runKernelExit CoreId.cm7) ++
              (List.range mcu).map ShutdownAction.runMcuExit))
      · exact getLastQ_append_pair ShutdownAction.setSleepDeep
          ShutdownAction.wfeForever
          (ShutdownAction.setOwnFlag CoreId.cm4 :: ShutdownAction.sevSignal ::
            ShutdownAction.spinOnPeer n :: ShutdownAction.disableFaults ::
            (List.range k4).map (ShutdownAction.runKernelExit CoreId.cm4))
    · intro i hi
      cases c <;>
        simp only [kernelExitLen] at hi <;>
        simp [_get_this_shutdown_fn, _exec_cm7_shutdown, _exec_cm4_shutdown,
          List.count_cons,
          List.count_append,
          List.count_map_of_injective _ _ (runKernelExit_injective _),
          List.count_eq_one_of_mem (List.nodup_range _)
            (List.mem_range.mpr hi),
          List.count_eq_zero, List.mem_map]
    · rintro rfl i
      simp [_get_this_shutdown_fn, _exec_cm4_shutdown, List.mem_append,
        List.mem_map]
    · rintro rfl i hi
      simp [_get_this_shutdown_fn, _exec_cm7_shutdown, List.count_cons,
        List.count_append,
        List.count_map_of_injective _ _ runMcuExit_injective,
        List.count_eq_one_of_mem (List.nodup_range _)
          (List.mem_range.mpr hi),
        List.count_eq_zero, List.mem_map]

/-- Witness for C6: a CM4 shutdown with a one-handler kernel table and a
nonempty `mcu_exit` table, the peer flag up immediately: the trace ends in
the WFE loop, runs the CM4 handler once, and never runs an mcu handler. -/
theorem sys_shutdown_spec_witness :
    ([ShutdownAction.setOwnFlag CoreId.cm4, ShutdownAction.sevSignal,
        ShutdownAction.spinOnPeer 0, ShutdownAction.disableFaults,
        ShutdownAction.runKernelExit CoreId.cm4 0, ShutdownAction.setSleepDeep,
        ShutdownAction.wfeForever].getLast? = some ShutdownAction.wfeForever) ∧
    ([ShutdownAction.setOwnFlag CoreId.cm4, ShutdownAction.sevSignal,
        ShutdownAction.spinOnPeer 0, ShutdownAction.disableFaults,
        ShutdownAction.runKernelExit CoreId.cm4 0, ShutdownAction.setSleepDeep,
        ShutdownAction.wfeForever].count
        (ShutdownAction.runKernelExit CoreId.cm4 0) = 1) ∧
    ShutdownAction.runMcuExit 0 ∉
      [ShutdownAction.setOwnFlag CoreId.cm4, ShutdownAction.sevSignal,
        ShutdownAction.spinOnPeer 0, ShutdownAction.disableFaults,
        ShutdownAction.runKernelExit CoreId.cm4 0, ShutdownAction.setSleepDeep,
        ShutdownAction.wfeForever] := by
  refine ⟨?_, ?_, ?_⟩
  · exact (sys_shutdown_spec CoreId.cm4 0 1 1 (fun _ => true) 1 _ rfl).2.1
  · exact (sys_shutdown_spec CoreId.cm4 0 1 1 (fun _ => true) 1 _ rfl).2.2.1 0
      (by decide)
  · exact (sys_shutdown_spec CoreId.cm4 0 1 1 (fun _ => true) 1 _ rfl).2.2.2.1
      rfl 0

end Titan
